import Mathlib

/-!
VMCB layout and primitive types of the Fiasco kernel

Shallow embedding of

* `src/types/sparc/types-arch.h`: the fixed-width integer typedefs, the
  machine-word and address types, `MWORD_BITS`, `L4_PTR_ARG`;
* `src/abi/virt-ia32-amd64.cpp`: the packed structures `Vmcb_control_area`,
  `Vmcb_state_save_area`, `Vmcb`, and the accessor `Vmcb::np_enabled`.

A structure declaration is embedded as the list of its members in
declaration order.  The `packed` attribute is embedded as the layout rule
"every member starts where the previous one ends".  An object of type `Vmcb`
is embedded as its object representation, an image of 4096 bytes; reading a
member is a little-endian load (ia32 and amd64 are little-endian) at the
member's packed offset.
-/

namespace Fiasco

/-! ## Primitive types (`types-arch.h`) -/

/-- The C integer types that occur on the right of a typedef in
`types-arch.h`, and `unsigned`, the return type of `Vmcb::np_enabled`. -/
inductive CType where
  | unsigned_char
  | signed_char
  | unsigned_short
  | signed_short
  | unsigned_int
  | signed_int
  | unsigned_long_long_int
  | signed_long_long_int
  | signed_long_int
  | unsigned_long_int
  deriving DecidableEq, Repr

/-- The two C data models of the targets involved: ILP32 (32-bit SPARC, ia32)
and LP64 (amd64). -/
inductive DataModel where
  | ILP32
  | LP64
  deriving DecidableEq, Repr

/-- Modelled from the spec: the bit widths of the C integer types are fixed by
the compiler's data model, which is not part of the sources.  Under ILP32
`int` and `long` have 32 bits; under LP64 `long` has 64 bits; `char`, `short`
and `long long` have 8, 16 and 64 bits under both. -/
def CType.bits (dm : DataModel) : CType → Nat
  | .unsigned_char => 8
  | .signed_char => 8
  | .unsigned_short => 16
  | .signed_short => 16
  | .unsigned_int => 32
  | .signed_int => 32
  | .unsigned_long_long_int => 64
  | .signed_long_long_int => 64
  | .signed_long_int => match dm with
    | .ILP32 => 32
    | .LP64 => 64
  | .unsigned_long_int => match dm with
    | .ILP32 => 32
    | .LP64 => 64

/-- Signedness of a C integer type, as written in its name. -/
def CType.isSigned : CType → Bool
  | .signed_char => true
  | .signed_short => true
  | .signed_int => true
  | .signed_long_long_int => true
  | .signed_long_int => true
  | _ => false

/-- The type names introduced by the typedefs of `types-arch.h`. -/
inductive TypeName where
  | Unsigned8
  | Signed8
  | Unsigned16
  | Signed16
  | Unsigned32
  | Signed32
  | Unsigned64
  | Signed64
  | Smword
  | Mword
  | Address
  | Cpu_time
  deriving DecidableEq, Repr

/-- The typedefs of `types-arch.h`, resolved to the C type they name
(`Cpu_time` is a typedef of `Unsigned64`). -/
def TypeName.underlying : TypeName → CType
  | .Unsigned8 => .unsigned_char
  | .Signed8 => .signed_char
  | .Unsigned16 => .unsigned_short
  | .Signed16 => .signed_short
  | .Unsigned32 => .unsigned_int
  | .Signed32 => .signed_int
  | .Unsigned64 => .unsigned_long_long_int
  | .Signed64 => .signed_long_long_int
  | .Smword => .signed_long_int
  | .Mword => .unsigned_long_int
  | .Address => .unsigned_long_int
  | .Cpu_time => .unsigned_long_long_int

/-- Enumerator `MWORD_BITS = 32` of `types-arch.h`. -/
def MWORD_BITS : Nat := 32

/-- Enumerator `ARCH_PAGE_SHIFT = 12` of `types-arch.h`. -/
def ARCH_PAGE_SHIFT : Nat := 12

/-- Width in bits of a typedef name under a data model. -/
def TypeName.bits (dm : DataModel) (t : TypeName) : Nat :=
  t.underlying.bits dm

/-- Value of `sizeof(t)` in bytes. -/
def TypeName.sizeof (dm : DataModel) (t : TypeName) : Nat :=
  t.bits dm / 8

/-- Conversion of a non-negative integer to an unsigned C type of `w` bits. -/
def toUnsigned (w : Nat) (x : Nat) : Nat :=
  x % 2 ^ w

/-- Macro `L4_PTR_ARG(a)`, which is `((Address)(a))`: the conversion of `a`
to the unsigned type `Address`. -/
def L4_PTR_ARG (dm : DataModel) (a : Nat) : Nat :=
  toUnsigned (TypeName.Address.bits dm) a

/-! ## Structure declarations (`virt-ia32-amd64.cpp`) -/

/-- One member declaration `ty name;` (`dim = none`) or `ty name[n];`
(`dim = some n`). -/
structure Member where
  name : String
  ty : TypeName
  dim : Option Nat
  deriving DecidableEq, Repr

/-- Scalar member `ty name;`. -/
def fld (ty : TypeName) (name : String) : Member :=
  { name := name, ty := ty, dim := none }

/-- Array member `ty name[n];`. -/
def arr (ty : TypeName) (name : String) (n : Nat) : Member :=
  { name := name, ty := ty, dim := some n }

/-- Members of `struct Vmcb_control_area`, in declaration order. -/
def Vmcb_control_area : List Member :=
  [ fld .Unsigned16 "intercept_rd_crX",
    fld .Unsigned16 "intercept_wr_crX",
    fld .Unsigned16 "intercept_rd_drX",
    fld .Unsigned16 "intercept_wr_drX",
    fld .Unsigned32 "intercept_exceptions",
    fld .Unsigned32 "intercept_instruction0",
    fld .Unsigned32 "intercept_instruction1",
    arr .Unsigned8 "_reserved0" 44,
    fld .Unsigned64 "iopm_base_pa",
    fld .Unsigned64 "msrpm_base_pa",
    fld .Unsigned64 "tsc_offset",
    fld .Unsigned64 "guest_asid_tlb_ctl",
    fld .Unsigned64 "interrupt_ctl",
    fld .Unsigned64 "interrupt_shadow",
    fld .Unsigned64 "exitcode",
    fld .Unsigned64 "exitinfo1",
    fld .Unsigned64 "exitinfo2",
    fld .Unsigned64 "exitintinfo",
    fld .Unsigned64 "np_enable",
    arr .Unsigned8 "_reserved1" 16,
    fld .Unsigned64 "eventinj",
    fld .Unsigned64 "n_cr3",
    fld .Unsigned64 "lbr_virtualization_enable",
    arr .Unsigned8 "_reserved2" 832 ]

/-- Members of `struct Vmcb_state_save_area`, in declaration order. -/
def Vmcb_state_save_area : List Member :=
  [ fld .Unsigned16 "es_sel",
    fld .Unsigned16 "es_attrib",
    fld .Unsigned32 "es_limit",
    fld .Unsigned64 "es_base",
    fld .Unsigned16 "cs_sel",
    fld .Unsigned16 "cs_attrib",
    fld .Unsigned32 "cs_limit",
    fld .Unsigned64 "cs_base",
    fld .Unsigned16 "ss_sel",
    fld .Unsigned16 "ss_attrib",
    fld .Unsigned32 "ss_limit",
    fld .Unsigned64 "ss_base",
    fld .Unsigned16 "ds_sel",
    fld .Unsigned16 "ds_attrib",
    fld .Unsigned32 "ds_limit",
    fld .Unsigned64 "ds_base",
    fld .Unsigned16 "fs_sel",
    fld .Unsigned16 "fs_attrib",
    fld .Unsigned32 "fs_limit",
    fld .Unsigned64 "fs_base",
    fld .Unsigned16 "gs_sel",
    fld .Unsigned16 "gs_attrib",
    fld .Unsigned32 "gs_limit",
    fld .Unsigned64 "gs_base",
    fld .Unsigned16 "gdtr_sel",
    fld .Unsigned16 "gdtr_attrib",
    fld .Unsigned32 "gdtr_limit",
    fld .Unsigned64 "gdtr_base",
    fld .Unsigned16 "ldtr_sel",
    fld .Unsigned16 "ldtr_attrib",
    fld .Unsigned32 "ldtr_limit",
    fld .Unsigned64 "ldtr_base",
    fld .Unsigned16 "idtr_sel",
    fld .Unsigned16 "idtr_attrib",
    fld .Unsigned32 "idtr_limit",
    fld .Unsigned64 "idtr_base",
    fld .Unsigned16 "tr_sel",
    fld .Unsigned16 "tr_attrib",
    fld .Unsigned32 "tr_limit",
    fld .Unsigned64 "tr_base",
    arr .Unsigned8 "_reserved0" 43,
    fld .Unsigned8 "cpl",
    fld .Unsigned32 "_reserved1",
    fld .Unsigned64 "efer",
    arr .Unsigned8 "_reserved2" 112,
    fld .Unsigned64 "cr4",
    fld .Unsigned64 "cr3",
    fld .Unsigned64 "cr0",
    fld .Unsigned64 "dr7",
    fld .Unsigned64 "dr6",
    fld .Unsigned64 "rflags",
    fld .Unsigned64 "rip",
    arr .Unsigned8 "_reserved3" 88,
    fld .Unsigned64 "rsp",
    arr .Unsigned8 "_reserved4" 24,
    fld .Unsigned64 "rax",
    fld .Unsigned64 "star",
    fld .Unsigned64 "lstar",
    fld .Unsigned64 "cstar",
    fld .Unsigned64 "sfmask",
    fld .Unsigned64 "kernelgsbase",
    fld .Unsigned64 "sysenter_cs",
    fld .Unsigned64 "sysenter_esp",
    fld .Unsigned64 "sysenter_eip",
    fld .Unsigned64 "cr2",
    arr .Unsigned8 "_reserved5" 32,
    fld .Unsigned64 "g_pat",
    fld .Unsigned64 "dbgctl",
    fld .Unsigned64 "br_from",
    fld .Unsigned64 "br_to",
    fld .Unsigned64 "lastexcpfrom",
    fld .Unsigned64 "last_excpto",
    arr .Unsigned8 "_reserved6" 2408 ]

/-- One data member of `struct Vmcb`: a member of structure type. -/
structure StructMember where
  name : String
  tyName : String
  members : List Member
  deriving DecidableEq, Repr

/-- Data members of `struct Vmcb`, in declaration order. -/
def Vmcb : List StructMember :=
  [ { name := "control_area", tyName := "Vmcb_control_area",
      members := Vmcb_control_area },
    { name := "state_save_area", tyName := "Vmcb_state_save_area",
      members := Vmcb_state_save_area } ]

/-! ## Packed layout -/

/-- Value of `sizeof` of a member: the element size, times the array length
for an array member. -/
def Member.sizeof (dm : DataModel) (m : Member) : Nat :=
  match m.dim with
  | none => m.ty.sizeof dm
  | some n => m.ty.sizeof dm * n

/-- A member is reserved when its name starts with `_reserved`. -/
def Member.reserved (m : Member) : Bool :=
  "_reserved".data.isPrefixOf m.name.data

/-- Layout of a member list under `__attribute__((packed))`, starting at byte
`start`: every member is placed at the first byte after the previous member,
with no alignment padding.  The result pairs each member with its offset. -/
def packedFrom (dm : DataModel) (start : Nat) : List Member → List (Member × Nat)
  | [] => []
  | m :: ms => (m, start) :: packedFrom dm (start + m.sizeof dm) ms

/-- Packed layout of a structure, offsets counted from the structure's start. -/
def packed (dm : DataModel) (ms : List Member) : List (Member × Nat) :=
  packedFrom dm 0 ms

/-- Value of `sizeof` of a packed structure: the first byte after its last
member. -/
def packedSize (dm : DataModel) : List Member → Nat
  | [] => 0
  | m :: ms => m.sizeof dm + packedSize dm ms

/-- Value of `offsetof(struct, name)` in a packed structure, `none` when the
structure declares no member of that name. -/
def offsetof (dm : DataModel) (ms : List Member) (name : String) : Option Nat :=
  ((packed dm ms).find? (fun p => p.1.name = name)).map (fun p => p.2)

/-- Width in bytes of the member `name`, `none` when there is no such member. -/
def widthof (dm : DataModel) (ms : List Member) (name : String) : Option Nat :=
  (ms.find? (fun m => m.name = name)).map (fun m => m.sizeof dm)

/-- Packed layout of a list of structure-typed members starting at byte
`start`: each one is placed directly after the previous one. -/
def packedStructsFrom (dm : DataModel) (start : Nat) :
    List StructMember → List (StructMember × Nat)
  | [] => []
  | s :: ss =>
    (s, start) :: packedStructsFrom dm (start + packedSize dm s.members) ss

/-- Value of `sizeof` of a packed structure whose members are structures. -/
def packedStructsSize (dm : DataModel) : List StructMember → Nat
  | [] => 0
  | s :: ss => packedSize dm s.members + packedStructsSize dm ss

/-- Value of `offsetof(outer, name)` for a structure-typed member. -/
def structOffsetof (dm : DataModel) (ss : List StructMember) (name : String) :
    Option Nat :=
  ((packedStructsFrom dm 0 ss).find? (fun p => p.1.name = name)).map
    (fun p => p.2)

/-- A leaf member of `Vmcb` with its place in the object: the `Vmcb` member
it belongs to (`area`), its own name, its byte offset from the start of the
`Vmcb` and its width in bytes. -/
structure Slot where
  area : String
  name : String
  offset : Nat
  width : Nat
  reserved : Bool
  deriving DecidableEq, Repr

/-- The slots of one structure-typed member placed at byte `base`. -/
def slotsOf (dm : DataModel) (s : StructMember) (base : Nat) : List Slot :=
  (packedFrom dm base s.members).map (fun p =>
    { area := s.name, name := p.1.name, offset := p.2,
      width := p.1.sizeof dm, reserved := p.1.reserved })

/-- All leaf members of a packed structure of structures, in address order. -/
def allSlots (dm : DataModel) (ss : List StructMember) : List Slot :=
  (packedStructsFrom dm 0 ss).flatMap (fun p => slotsOf dm p.1 p.2)

/-- Leaf members of `Vmcb`, named and reserved. -/
def vmcbSlots (dm : DataModel) : List Slot :=
  allSlots dm Vmcb

/-- The named (not reserved) leaf members of `Vmcb`. -/
def namedSlots (dm : DataModel) : List Slot :=
  (vmcbSlots dm).filter (fun s => !s.reserved)

/-- The reserved leaf members of `Vmcb`. -/
def reservedSlots (dm : DataModel) : List Slot :=
  (vmcbSlots dm).filter (fun s => s.reserved)

/-- The slot of member `area.name` of `Vmcb`. -/
def vmcbSlot (dm : DataModel) (area name : String) : Option Slot :=
  (vmcbSlots dm).find? (fun s => s.area = area ∧ s.name = name)

/-! ## Object representation -/

/-- A byte. -/
abbrev Byte := Fin 256

/-- An object representation of `n` bytes. -/
def Image (n : Nat) := Fin n → Byte

/-- The byte at address `a`, as a number; `0` outside the image. -/
def Image.byteAt {n : Nat} (img : Image n) (a : Nat) : Nat :=
  if h : a < n then (img ⟨a, h⟩).val else 0

/-- Little-endian load of `w` bytes at byte offset `off`. -/
def Image.loadLE {n : Nat} (img : Image n) (off : Nat) : Nat → Nat
  | 0 => 0
  | w + 1 => img.loadLE off w + img.byteAt (off + w) * 256 ^ w

/-- Little-endian store of the `w` low bytes of `v` at byte offset `off`. -/
def Image.storeLE {n : Nat} (img : Image n) (off w v : Nat) : Image n :=
  fun i =>
    if off ≤ i.val ∧ i.val < off + w then
      ⟨v / 256 ^ (i.val - off) % 256, Nat.mod_lt _ (by decide)⟩
    else img i

/-- Overwrite the bytes from offset `off` on with the byte sequence `bs`. -/
def Image.overwrite {n : Nat} (img : Image n) (off : Nat) (bs : List Byte) :
    Image n :=
  fun i =>
    if h : off ≤ i.val ∧ i.val < off + bs.length then
      bs.get ⟨i.val - off, by omega⟩
    else img i

/-- The object representation of a `Vmcb`: 4096 bytes. -/
abbrev VmcbImage := Image 4096

/-- Read of the member `area.name` of a `Vmcb` object: a little-endian load
at the member's packed offset, of the member's width. -/
def Vmcb.member (dm : DataModel) (v : VmcbImage) (area name : String) :
    Nat :=
  match vmcbSlot dm area name with
  | some s => v.loadLE s.offset s.width
  | none => 0

/-- Method `Vmcb::np_enabled`, `return control_area.np_enable & 1;`.  The
operand `1` is converted to `Unsigned64`, the conjunction is computed in
`Unsigned64`, and the result is converted to the return type `unsigned`. -/
def Vmcb.np_enabled (dm : DataModel) (v : VmcbImage) : Nat :=
  toUnsigned (CType.unsigned_int.bits dm)
    (Vmcb.member dm v "control_area" "np_enable" &&&
      toUnsigned (TypeName.Unsigned64.bits dm) 1)

/-- Assignment `v.area.name = x` on a `Vmcb` object: a little-endian store of
the low bytes of `x` at the member's packed offset, of the member's width. -/
def Vmcb.setMember (dm : DataModel) (v : VmcbImage) (area name : String)
    (x : Nat) : VmcbImage :=
  match vmcbSlot dm area name with
  | some s => v.storeLE s.offset s.width x
  | none => v

/-- When a member list starts with four scalar members `p_sel : Unsigned16`,
`p_attrib : Unsigned16`, `p_limit : Unsigned32`, `p_base : Unsigned64` for
one prefix `p`, that prefix. -/
def quadAt : List Member → Option String
  | a :: b :: c :: d :: _ =>
    let p : String := String.mk (a.name.data.take (a.name.data.length - 4))
    if a = fld .Unsigned16 (p ++ "_sel") ∧ b = fld .Unsigned16 (p ++ "_attrib")
        ∧ c = fld .Unsigned32 (p ++ "_limit") ∧ d = fld .Unsigned64 (p ++ "_base")
    then some p else none
  | _ => none

/-- The (sel, attrib, limit, base) quadruples declared in a member list, by
their prefix, in declaration order. -/
def quadruples (ms : List Member) : List String :=
  ms.tails.filterMap quadAt

/-- The six segment registers of ia32/amd64. -/
def segmentRegisters : List String :=
  ["es", "cs", "ss", "ds", "fs", "gs"]

/-- The descriptor-table registers (GDTR, LDTR, IDTR) and the task register
(TR) of ia32/amd64. -/
def tableRegisters : List String :=
  ["gdtr", "ldtr", "idtr", "tr"]

/-- The segment and table registers in the order of the hardware table. -/
def descriptorOrder : List String :=
  ["es", "cs", "ss", "ds", "fs", "gs", "gdtr", "ldtr", "idtr", "tr"]

/-- Two slots occupy disjoint byte ranges. -/
def Slot.disjoint (s t : Slot) : Prop :=
  s.offset + s.width ≤ t.offset ∨ t.offset + t.width ≤ s.offset

instance (s t : Slot) : Decidable (s.disjoint t) := by
  unfold Slot.disjoint
  exact inferInstance

/-- A sample assignment to the slots: pairwise distinct, non-zero values that
fit the width of their slot. -/
def sampleValues (s : Slot) : Nat :=
  if s.width = 1 then 2 else s.offset + 1

/-- The `Vmcb` image with every byte 0. -/
def zeroImage : VmcbImage :=
  fun _ => 0

/-- The `Vmcb` image with every byte 1. -/
def onesImage : VmcbImage :=
  fun _ => 1

/-! ## Layout with natural alignment

The layout a compiler computes without the `packed` attribute, stated after
the words of the specification: a scalar is aligned to its size, an array to
its element, a structure to its most strictly aligned member; padding is
inserted before a member up to its alignment and after the last member up to
the alignment of the structure. -/

/-- Natural alignment of a scalar type: its size in bytes (1 for `Unsigned8`,
2 for `Unsigned16`, 4 for `Unsigned32`, 8 for `Unsigned64`). -/
def TypeName.alignof (dm : DataModel) (t : TypeName) : Nat :=
  t.sizeof dm

/-- Natural alignment of a member: that of its type, for an array that of its
element type. -/
def Member.alignof (dm : DataModel) (m : Member) : Nat :=
  m.ty.alignof dm

/-- The least multiple of `a` that is not below `x`. -/
def alignUp (a x : Nat) : Nat :=
  (x + a - 1) / a * a

/-- Layout of a member list with natural alignment, starting at byte `start`:
every member is placed at the first multiple of its alignment after the
previous member. -/
def naturalFrom (dm : DataModel) (start : Nat) : List Member → List (Member × Nat)
  | [] => []
  | m :: ms =>
    (m, alignUp (m.alignof dm) start)
      :: naturalFrom dm (alignUp (m.alignof dm) start + m.sizeof dm) ms

/-- Layout of a structure with natural alignment, offsets counted from the
structure's start. -/
def natural (dm : DataModel) (ms : List Member) : List (Member × Nat) :=
  naturalFrom dm 0 ms

/-- The first byte after the last member in the layout with natural
alignment that starts at byte `start`. -/
def naturalEnd (dm : DataModel) (start : Nat) : List Member → Nat
  | [] => start
  | m :: ms => naturalEnd dm (alignUp (m.alignof dm) start + m.sizeof dm) ms

/-- Natural alignment of a structure: the largest alignment of its members. -/
def structAlignof (dm : DataModel) (ms : List Member) : Nat :=
  (ms.map (fun m => m.alignof dm)).foldl max 1

/-- Value of `sizeof` of a structure laid out with natural alignment: the end
of its last member, padded to the alignment of the structure. -/
def naturalSize (dm : DataModel) (ms : List Member) : Nat :=
  alignUp (structAlignof dm ms) (naturalEnd dm 0 ms)

/-- Layout with natural alignment of a list of structure-typed members. -/
def naturalStructsFrom (dm : DataModel) (start : Nat) :
    List StructMember → List (StructMember × Nat)
  | [] => []
  | s :: ss =>
    (s, alignUp (structAlignof dm s.members) start)
      :: naturalStructsFrom dm
          (alignUp (structAlignof dm s.members) start + naturalSize dm s.members)
          ss

/-- The first byte after the last structure-typed member in the layout with
natural alignment. -/
def naturalStructsEnd (dm : DataModel) (start : Nat) : List StructMember → Nat
  | [] => start
  | s :: ss =>
    naturalStructsEnd dm
      (alignUp (structAlignof dm s.members) start + naturalSize dm s.members) ss

/-- Value of `sizeof` of a structure of structures laid out with natural
alignment. -/
def naturalStructsSize (dm : DataModel) (ss : List StructMember) : Nat :=
  alignUp ((ss.map (fun s => structAlignof dm s.members)).foldl max 1)
    (naturalStructsEnd dm 0 ss)

/-- A structure that natural alignment does pad: `Unsigned8 a; Unsigned64 b;`. -/
def paddedSample : List Member :=
  [fld .Unsigned8 "a", fld .Unsigned64 "b"]

/-- The byte range of a placed member contains the byte `b`. -/
def covers (dm : DataModel) (p : Member × Nat) (b : Nat) : Prop :=
  p.2 ≤ b ∧ b < p.2 + p.1.sizeof dm

/-- The byte ranges of two placed members are disjoint. -/
def rangesDisjoint (dm : DataModel) (p q : Member × Nat) : Prop :=
  p.2 + p.1.sizeof dm ≤ q.2 ∨ q.2 + q.1.sizeof dm ≤ p.2

/-- The byte range of a slot contains the byte `b`. -/
def Slot.covers (s : Slot) (b : Nat) : Prop :=
  s.offset ≤ b ∧ b < s.offset + s.width

/-- Write the value `val s` into every slot `s` of the list, in list order. -/
def storeSlots {n : Nat} (val : Slot → Nat) (img : Image n) (ss : List Slot) :
    Image n :=
  ss.foldl (fun im s => im.storeLE s.offset s.width (val s)) img

end Fiasco

namespace Fiasco

/-! ## Loads and stores on byte images -/

theorem byteAt_lt {n : Nat} (img : Image n) (a : Nat) : img.byteAt a < 256 := by
  unfold Image.byteAt
  split
  · exact (img _).isLt
  · decide

theorem byteAt_storeLE_inside {n : Nat} (img : Image n) (off w v a : Nat)
    (ha : a < n) (h1 : off ≤ a) (h2 : a < off + w) :
    (img.storeLE off w v).byteAt a = v / 256 ^ (a - off) % 256 := by
  simp [Image.byteAt, Image.storeLE, ha, h1, h2]

theorem byteAt_storeLE_outside {n : Nat} (img : Image n) (off w v a : Nat)
    (h : a < off ∨ off + w ≤ a) :
    (img.storeLE off w v).byteAt a = img.byteAt a := by
  unfold Image.byteAt
  split
  · have hn : ¬ (off ≤ a ∧ a < off + w) := by omega
    simp [Image.storeLE, hn]
  · rfl

theorem byteAt_overwrite_outside {n : Nat} (img : Image n) (off : Nat)
    (bs : List Byte) (a : Nat) (h : a < off ∨ off + bs.length ≤ a) :
    (img.overwrite off bs).byteAt a = img.byteAt a := by
  unfold Image.byteAt
  split
  · have hn : ¬ (off ≤ a ∧ a < off + bs.length) := by omega
    simp [Image.overwrite, hn]
  · rfl

theorem loadLE_congr {n : Nat} (img1 img2 : Image n) (off : Nat) :
    ∀ w : Nat, (∀ k, k < w → img1.byteAt (off + k) = img2.byteAt (off + k)) →
      img1.loadLE off w = img2.loadLE off w := by
  intro w
  induction w with
  | zero => intro _; rfl
  | succ w ih =>
    intro h
    simp only [Image.loadLE]
    rw [ih (fun k hk => h k (Nat.lt_succ_of_lt hk)), h w (Nat.lt_succ_self w)]

theorem loadLE_lt {n : Nat} (img : Image n) (off : Nat) :
    ∀ w : Nat, img.loadLE off w < 256 ^ w := by
  intro w
  induction w with
  | zero => simp [Image.loadLE]
  | succ w ih =>
    simp only [Image.loadLE]
    have hb := byteAt_lt img (off + w)
    have hp : 0 < 256 ^ w := by positivity
    calc img.loadLE off w + img.byteAt (off + w) * 256 ^ w
        < 256 ^ w + img.byteAt (off + w) * 256 ^ w := by omega
      _ = (img.byteAt (off + w) + 1) * 256 ^ w := by ring
      _ ≤ 256 * 256 ^ w := Nat.mul_le_mul_right _ (by omega)
      _ = 256 ^ (w + 1) := by ring

theorem loadLE_storeLE_prefix {n : Nat} (img : Image n) (off w v : Nat) :
    ∀ k : Nat, k ≤ w → off + w ≤ n →
      (img.storeLE off w v).loadLE off k = v % 256 ^ k := by
  intro k
  induction k with
  | zero => intro _ _; simp [Image.loadLE, Nat.mod_one]
  | succ k ih =>
    intro hk hn
    simp only [Image.loadLE]
    rw [ih (by omega) hn,
      byteAt_storeLE_inside img off w v (off + k) (by omega) (by omega) (by omega)]
    rw [Nat.add_sub_cancel_left, Nat.mod_pow_succ]
    ring

theorem loadLE_storeLE_same {n : Nat} (img : Image n) (off w v : Nat)
    (hn : off + w ≤ n) :
    (img.storeLE off w v).loadLE off w = v % 256 ^ w :=
  loadLE_storeLE_prefix img off w v w (Nat.le_refl w) hn

theorem loadLE_storeLE_disjoint {n : Nat} (img : Image n) (off w off2 w2 v : Nat)
    (h : off + w ≤ off2 ∨ off2 + w2 ≤ off) :
    (img.storeLE off2 w2 v).loadLE off w = img.loadLE off w := by
  apply loadLE_congr
  intro k hk
  exact byteAt_storeLE_outside img off2 w2 v (off + k) (by omega)

theorem loadLE_overwrite_disjoint {n : Nat} (img : Image n) (off w off2 : Nat)
    (bs : List Byte) (h : off + w ≤ off2 ∨ off2 + bs.length ≤ off) :
    (img.overwrite off2 bs).loadLE off w = img.loadLE off w := by
  apply loadLE_congr
  intro k hk
  exact byteAt_overwrite_outside img off2 bs (off + k) (by omega)

theorem loadLE_storeSlots_disjoint {n : Nat} (val : Slot → Nat) (s : Slot) :
    ∀ (ss : List Slot) (img : Image n), (∀ t ∈ ss, s.disjoint t) →
      (storeSlots val img ss).loadLE s.offset s.width
        = img.loadLE s.offset s.width := by
  intro ss
  induction ss with
  | nil => intro img _; rfl
  | cons t ts ih =>
    intro img h
    simp only [storeSlots, List.foldl_cons]
    have h1 := ih (img.storeLE t.offset t.width (val t))
      (fun u hu => h u (List.mem_cons_of_mem _ hu))
    simp only [storeSlots] at h1
    rw [h1]
    exact loadLE_storeLE_disjoint img s.offset s.width t.offset t.width (val t)
      (h t (List.mem_cons_self _ _))

theorem loadLE_storeSlots_mem {n : Nat} (val : Slot → Nat) :
    ∀ (ss : List Slot) (img : Image n), ss.Pairwise Slot.disjoint →
      (∀ t ∈ ss, t.offset + t.width ≤ n) →
      ∀ s ∈ ss, (storeSlots val img ss).loadLE s.offset s.width
        = val s % 256 ^ s.width := by
  intro ss
  induction ss with
  | nil => intro _ _ _ s hs; cases hs
  | cons t ts ih =>
    intro img hp hb s hs
    rw [List.pairwise_cons] at hp
    have hstep : storeSlots val img (t :: ts)
        = storeSlots val (img.storeLE t.offset t.width (val t)) ts := by
      simp [storeSlots]
    rw [hstep]
    by_cases hts : s ∈ ts
    · exact ih _ hp.2 (fun u hu => hb u (List.mem_cons_of_mem _ hu)) s hts
    · have hst : s = t := by
        rcases List.mem_cons.mp hs with h | h
        · exact h
        · exact absurd h hts
      subst hst
      rw [loadLE_storeSlots_disjoint val s ts _ hp.1]
      exact loadLE_storeLE_same img s.offset s.width (val s)
        (hb s (List.mem_cons_self _ _))

end Fiasco

namespace Fiasco

/-! ## The accessor `Vmcb::np_enabled` -/

theorem vmcbSlot_np_enable (dm : DataModel) :
    vmcbSlot dm "control_area" "np_enable"
      = some { area := "control_area", name := "np_enable", offset := 0x90,
               width := 8, reserved := false } := by
  cases dm <;> decide

theorem member_np_enable (dm : DataModel) (v : VmcbImage) :
    Vmcb.member dm v "control_area" "np_enable" = v.loadLE 0x90 8 := by
  simp only [Vmcb.member, vmcbSlot_np_enable]

theorem setMember_np_enable (dm : DataModel) (v : VmcbImage) (x : Nat) :
    Vmcb.setMember dm v "control_area" "np_enable" x = v.storeLE 0x90 8 x := by
  simp only [Vmcb.setMember, vmcbSlot_np_enable]

theorem member_setMember_np_enable (dm : DataModel) (v : VmcbImage) (x : Nat) :
    Vmcb.member dm (Vmcb.setMember dm v "control_area" "np_enable" x)
      "control_area" "np_enable" = x % 2 ^ 64 := by
  rw [setMember_np_enable, member_np_enable,
    loadLE_storeLE_same v 0x90 8 x (by decide)]
  norm_num

theorem xor_one_mod_two (x : Nat) : (x ^^^ 1) % 2 = 1 - x % 2 := by
  have h0 := Nat.testBit_xor x 1 0
  rw [Nat.testBit_zero, Nat.testBit_zero, Nat.testBit_zero] at h0
  rcases Nat.mod_two_eq_zero_or_one x with h | h <;>
    rcases Nat.mod_two_eq_zero_or_one (x ^^^ 1) with k | k <;>
    rw [h, k] at h0 <;> rw [h, k] <;> revert h0 <;> decide

theorem np_enabled_eq_mod (dm : DataModel) (v : VmcbImage) :
    Vmcb.np_enabled dm v = Vmcb.member dm v "control_area" "np_enable" % 2 := by
  have h1 : toUnsigned (TypeName.Unsigned64.bits dm) 1 = 1 := by
    cases dm <;> decide
  have h2 : CType.unsigned_int.bits dm = 32 := by cases dm <;> rfl
  unfold Vmcb.np_enabled
  rw [h1, h2, Nat.and_one_is_mod]
  unfold toUnsigned
  apply Nat.mod_eq_of_lt
  have := Nat.mod_lt (Vmcb.member dm v "control_area" "np_enable") (by decide : 0 < 2)
  omega

/-- C1: for every `Vmcb` object, `np_enabled` is bit 0 of the 64-bit member
`control_area.np_enable`: it is the member's value modulo 2, that is 1 when
the member is odd and 0 when it is even, and it equals the 64-bit expression
`np_enable & 1` before the conversion to `unsigned`.  Every 64-bit value
occurs as the value of the member. -/
theorem np_enabled_is_bit0 (dm : DataModel) (v : VmcbImage) :
    Vmcb.member dm v "control_area" "np_enable" < 2 ^ 64
    ∧ Vmcb.np_enabled dm v = Vmcb.member dm v "control_area" "np_enable" % 2
    ∧ Vmcb.np_enabled dm v
        = (if Vmcb.member dm v "control_area" "np_enable" % 2 = 1 then 1 else 0)
    ∧ Vmcb.np_enabled dm v
        = ((Vmcb.member dm v "control_area" "np_enable").testBit 0).toNat
    ∧ Vmcb.np_enabled dm v = Vmcb.member dm v "control_area" "np_enable" &&& 1
    ∧ (∀ x : Nat,
        Vmcb.member dm (Vmcb.setMember dm v "control_area" "np_enable" x)
            "control_area" "np_enable" = x % 2 ^ 64
        ∧ Vmcb.np_enabled dm (Vmcb.setMember dm v "control_area" "np_enable" x)
            = x % 2) := by
  have hm := np_enabled_eq_mod dm v
  have hlt : Vmcb.member dm v "control_area" "np_enable" % 2 < 2 :=
    Nat.mod_lt _ (by decide)
  refine ⟨?_, hm, ?_, ?_, ?_, ?_⟩
  · rw [member_np_enable]
    have := loadLE_lt v 0x90 8
    norm_num at this ⊢
    exact this
  · rw [hm]
    split <;> omega
  · rw [hm, Nat.testBit_zero]
    by_cases h : Vmcb.member dm v "control_area" "np_enable" % 2 = 1
    · simp [h]
    · have h0 : Vmcb.member dm v "control_area" "np_enable" % 2 = 0 := by omega
      simp [h0]
  · rw [hm, Nat.and_one_is_mod]
  · intro x
    refine ⟨member_setMember_np_enable dm v x, ?_⟩
    rw [np_enabled_eq_mod, member_setMember_np_enable]
    omega

theorem others_disjoint_np_enable (dm : DataModel) :
    ∀ s ∈ vmcbSlots dm, (s.area = "control_area" ∧ s.name = "np_enable")
      ∨ (0x90 + 8 ≤ s.offset ∨ s.offset + s.width ≤ 0x90) := by
  cases dm <;> decide

/-- C2: for any two `Vmcb` objects `a` and `b`, arbitrary in every byte,
`np_enabled` agrees on them exactly when the members `control_area.np_enable`
agree on bit 0.  Assigning to `np_enable` its value with bit 0 flipped turns
a result 0 into 1 and a result 1 into 0; assigning a value that keeps bit 0
and has any bits 1..63 leaves the result as it is, and so does storing any
value into any other member, named or reserved. -/
theorem np_enabled_depends_on_bit0_only (dm : DataModel) (a b : VmcbImage) :
    (Vmcb.np_enabled dm a = Vmcb.np_enabled dm b ↔
      (Vmcb.member dm a "control_area" "np_enable").testBit 0
        = (Vmcb.member dm b "control_area" "np_enable").testBit 0)
    ∧ (Vmcb.np_enabled dm a = Vmcb.np_enabled dm b ↔
      Vmcb.member dm a "control_area" "np_enable" % 2
        = Vmcb.member dm b "control_area" "np_enable" % 2)
    ∧ Vmcb.np_enabled dm (Vmcb.setMember dm a "control_area" "np_enable"
          (Vmcb.member dm a "control_area" "np_enable" ^^^ 1))
        = 1 - Vmcb.np_enabled dm a
    ∧ Vmcb.np_enabled dm a ≤ 1
    ∧ (∀ hi : Nat,
        Vmcb.np_enabled dm (Vmcb.setMember dm a "control_area" "np_enable"
          (2 * hi + Vmcb.member dm a "control_area" "np_enable" % 2))
        = Vmcb.np_enabled dm a)
    ∧ (∀ s ∈ vmcbSlots dm, ¬ (s.area = "control_area" ∧ s.name = "np_enable") →
        ∀ x : Nat, Vmcb.np_enabled dm (a.storeLE s.offset s.width x)
          = Vmcb.np_enabled dm a) := by
  have ha := np_enabled_eq_mod dm a
  have hb := np_enabled_eq_mod dm b
  have hla : Vmcb.member dm a "control_area" "np_enable" % 2 < 2 :=
    Nat.mod_lt _ (by decide)
  have hlb : Vmcb.member dm b "control_area" "np_enable" % 2 < 2 :=
    Nat.mod_lt _ (by decide)
  refine ⟨?_, ?_, ?_, ?_, ?_, ?_⟩
  · rw [ha, hb, Nat.testBit_zero, Nat.testBit_zero]
    constructor
    · intro h; rw [h]
    · intro h
      by_cases h1 : Vmcb.member dm a "control_area" "np_enable" % 2 = 1
      · have : Vmcb.member dm b "control_area" "np_enable" % 2 = 1 := by
          simpa [h1] using h.symm
        omega
      · have : ¬ Vmcb.member dm b "control_area" "np_enable" % 2 = 1 := by
          intro h2
          apply h1
          simpa [h2] using h
        omega
  · rw [ha, hb]
  · rw [np_enabled_eq_mod, member_setMember_np_enable, ha]
    have hx := xor_one_mod_two (Vmcb.member dm a "control_area" "np_enable")
    omega
  · omega
  · intro hi
    rw [np_enabled_eq_mod, member_setMember_np_enable, ha]
    omega
  · intro s hs hne x
    rw [np_enabled_eq_mod, np_enabled_eq_mod, member_np_enable, member_np_enable]
    rcases others_disjoint_np_enable dm s hs with h | h
    · exact absurd h hne
    · rw [loadLE_storeLE_disjoint a 0x90 8 s.offset s.width x h]

/-- Witness of C2 at the image with every byte 1: `np_enable` is odd there, so
`np_enabled` is 1, and it is still 1 after 0xFFFF is stored into
`state_save_area.es_sel` (2 bytes at 0x400). -/
theorem np_enabled_depends_on_bit0_only_witness :
    (Slot.mk "state_save_area" "es_sel" 0x400 2 false) ∈ vmcbSlots .LP64
    ∧ Vmcb.np_enabled .LP64 (onesImage.storeLE 0x400 2 0xFFFF) = 1 :=
  ⟨by decide,
   ((np_enabled_depends_on_bit0_only .LP64 onesImage onesImage).2.2.2.2.2
      (Slot.mk "state_save_area" "es_sel" 0x400 2 false) (by decide) (by decide)
      0xFFFF).trans (by decide)⟩

/-! ## Layout of the three structures -/

/-- C3: in the packed `Vmcb`, `control_area` is at byte offset 0 and
`state_save_area` is at the byte offset that equals the size of
`Vmcb_control_area`, 1024 = 0x400, so the first area ends exactly where the
second begins; the size of `Vmcb` is the sum of the two sizes,
1024 + 3072 = 4096 bytes. -/
theorem Vmcb_areas_contiguous (dm : DataModel) :
    structOffsetof dm Vmcb "control_area" = some 0
    ∧ structOffsetof dm Vmcb "state_save_area"
        = some (packedSize dm Vmcb_control_area)
    ∧ packedStructsFrom dm 0 Vmcb
        = [ ({ name := "control_area", tyName := "Vmcb_control_area",
               members := Vmcb_control_area }, 0),
            ({ name := "state_save_area", tyName := "Vmcb_state_save_area",
               members := Vmcb_state_save_area },
             0 + packedSize dm Vmcb_control_area) ]
    ∧ packedSize dm Vmcb_control_area = 1024
    ∧ (1024 : Nat) = 0x400
    ∧ packedSize dm Vmcb_state_save_area = 3072
    ∧ packedStructsSize dm Vmcb
        = packedSize dm Vmcb_control_area + packedSize dm Vmcb_state_save_area
    ∧ packedStructsSize dm Vmcb = 4096 := by
  cases dm <;> decide

/-- C4: the packed offsets of the named members of `Vmcb_control_area` are
those of the control-area table (0x000 for `intercept_rd_crX` up to 0x0B8 for
`lbr_virtualization_enable`), the reserved members occupy exactly the byte
ranges 0x014-0x03F, 0x098-0x0A7 and 0x0C0-0x3FF, and the size of the
structure is 0x400 = 1024 bytes. -/
theorem Vmcb_control_area_offsets (dm : DataModel) :
    (((packed dm Vmcb_control_area).filter (fun p => !p.1.reserved)).map
        (fun p => (p.1.name, p.2))
      = [ ("intercept_rd_crX", 0x000), ("intercept_wr_crX", 0x002),
          ("intercept_rd_drX", 0x004), ("intercept_wr_drX", 0x006),
          ("intercept_exceptions", 0x008), ("intercept_instruction0", 0x00C),
          ("intercept_instruction1", 0x010), ("iopm_base_pa", 0x040),
          ("msrpm_base_pa", 0x048), ("tsc_offset", 0x050),
          ("guest_asid_tlb_ctl", 0x058), ("interrupt_ctl", 0x060),
          ("interrupt_shadow", 0x068), ("exitcode", 0x070),
          ("exitinfo1", 0x078), ("exitinfo2", 0x080), ("exitintinfo", 0x088),
          ("np_enable", 0x090), ("eventinj", 0x0A8), ("n_cr3", 0x0B0),
          ("lbr_virtualization_enable", 0x0B8) ])
    ∧ (((packed dm Vmcb_control_area).filter (fun p => p.1.reserved)).map
        (fun p => (p.1.name, p.2, p.2 + p.1.sizeof dm - 1))
      = [ ("_reserved0", 0x014, 0x03F), ("_reserved1", 0x098, 0x0A7),
          ("_reserved2", 0x0C0, 0x3FF) ])
    ∧ packedSize dm Vmcb_control_area = 0x400
    ∧ (0x400 : Nat) = 1024 := by
  cases dm <;> decide

/-- C5: after the ten descriptor records, the packed offsets and widths of the
named members of `Vmcb_state_save_area` are those of the state-save table:
`cpl` at 0x0CB with 1 byte, then `efer` at 0x0D0 up to `last_excpto` at 0x290
with 8 bytes each; the trailing reserved member starts at 0x298 and the size
of the structure is 0xC00 = 3072 bytes. -/
theorem Vmcb_state_save_area_offsets (dm : DataModel) :
    ((((packed dm Vmcb_state_save_area).filter (fun p => !p.1.reserved)).drop
        40).map (fun p => (p.1.name, p.2, p.1.sizeof dm))
      = [ ("cpl", 0x0CB, 1), ("efer", 0x0D0, 8), ("cr4", 0x148, 8),
          ("cr3", 0x150, 8), ("cr0", 0x158, 8), ("dr7", 0x160, 8),
          ("dr6", 0x168, 8), ("rflags", 0x170, 8), ("rip", 0x178, 8),
          ("rsp", 0x1D8, 8), ("rax", 0x1F8, 8), ("star", 0x200, 8),
          ("lstar", 0x208, 8), ("cstar", 0x210, 8), ("sfmask", 0x218, 8),
          ("kernelgsbase", 0x220, 8), ("sysenter_cs", 0x228, 8),
          ("sysenter_esp", 0x230, 8), ("sysenter_eip", 0x238, 8),
          ("cr2", 0x240, 8), ("g_pat", 0x268, 8), ("dbgctl", 0x270, 8),
          ("br_from", 0x278, 8), ("br_to", 0x280, 8),
          ("lastexcpfrom", 0x288, 8), ("last_excpto", 0x290, 8) ])
    ∧ (∀ p ∈ ((packed dm Vmcb_state_save_area).filter
          (fun p => !p.1.reserved)).take 40, p.2 + p.1.sizeof dm ≤ 0x0A0)
    ∧ (packed dm Vmcb_state_save_area).getLast? = some
        (arr .Unsigned8 "_reserved6" 2408, 0x298)
    ∧ 0x298 + (arr .Unsigned8 "_reserved6" 2408).sizeof dm = 0xC00
    ∧ packedSize dm Vmcb_state_save_area = 0xC00
    ∧ (0xC00 : Nat) = 3072 := by
  cases dm <;> decide

/-- C6: the descriptors of `Vmcb_state_save_area` are consecutive 16-byte
records in the order ES, CS, SS, DS, FS, GS, GDTR, LDTR, IDTR, TR: the record
of index `k` starts at byte offset `16 * k`, with the selector at +0
(2 bytes), the attribute at +2 (2 bytes), the limit at +4 (4 bytes) and the
base at +8 (8 bytes); the block ends at offset 0x0A0, where the first
reserved member begins. -/
theorem descriptor_records_layout (dm : DataModel) (k : Fin 10) :
    descriptorOrder.length = 10
    ∧ offsetof dm Vmcb_state_save_area (descriptorOrder.get k ++ "_sel")
        = some (16 * k.val)
    ∧ widthof dm Vmcb_state_save_area (descriptorOrder.get k ++ "_sel") = some 2
    ∧ offsetof dm Vmcb_state_save_area (descriptorOrder.get k ++ "_attrib")
        = some (16 * k.val + 2)
    ∧ widthof dm Vmcb_state_save_area (descriptorOrder.get k ++ "_attrib")
        = some 2
    ∧ offsetof dm Vmcb_state_save_area (descriptorOrder.get k ++ "_limit")
        = some (16 * k.val + 4)
    ∧ widthof dm Vmcb_state_save_area (descriptorOrder.get k ++ "_limit")
        = some 4
    ∧ offsetof dm Vmcb_state_save_area (descriptorOrder.get k ++ "_base")
        = some (16 * k.val + 8)
    ∧ widthof dm Vmcb_state_save_area (descriptorOrder.get k ++ "_base")
        = some 8
    ∧ (Vmcb_state_save_area.take 40).map (fun m => m.name)
        = descriptorOrder.flatMap (fun r =>
            [r ++ "_sel", r ++ "_attrib", r ++ "_limit", r ++ "_base"])
    ∧ (packed dm Vmcb_state_save_area).find? (fun p => p.1.reserved)
        = some (arr .Unsigned8 "_reserved0" 43, 0x0A0)
    ∧ (16 * 10 : Nat) = 0x0A0 := by
  revert k
  cases dm <;> decide

/-- C9 as stated fails: the number of (sel, attrib, limit, base) quadruples
declared in `Vmcb_state_save_area` is not 6 + 3 = 9. -/
theorem quadruples_count_ne_nine :
    ¬ ((quadruples Vmcb_state_save_area).length = 6 + 3) := by
  decide

/-- C9, amended: the (sel, attrib, limit, base) quadruples declared in
`Vmcb_state_save_area` are those of the six segment registers ES, CS, SS, DS,
FS, GS followed by those of the four descriptor-table and task registers
GDTR, LDTR, IDTR, TR; their number is 6 + 4 = 10. -/
theorem quadruples_are_six_plus_four :
    quadruples Vmcb_state_save_area = segmentRegisters ++ tableRegisters
    ∧ quadruples Vmcb_state_save_area
        = ["es", "cs", "ss", "ds", "fs", "gs", "gdtr", "ldtr", "idtr", "tr"]
    ∧ segmentRegisters.length = 6
    ∧ tableRegisters.length = 4
    ∧ (quadruples Vmcb_state_save_area).length = 6 + 4
    ∧ (quadruples Vmcb_state_save_area).length = 10 := by
  decide

/-! ## Primitive type widths -/

/-- C10: under ILP32, `MWORD_BITS` is 32 and is the width of `Mword` and of
`Smword`; `Address` has the width of `Mword`, and converting an address `a`
of the range 0 .. 2^32 - 1 to `Address` gives `a`; the aliases
`Unsigned8/16/32/64` and `Signed8/16/32/64` have 8, 16, 32 and 64 bits and
the signedness their names say. -/
theorem primitive_type_widths (a : Nat) (ha : a < 2 ^ 32) :
    MWORD_BITS = 32
    ∧ TypeName.Mword.bits .ILP32 = MWORD_BITS
    ∧ TypeName.Smword.bits .ILP32 = MWORD_BITS
    ∧ TypeName.Mword.underlying.isSigned = false
    ∧ TypeName.Smword.underlying.isSigned = true
    ∧ TypeName.Address.bits .ILP32 = TypeName.Mword.bits .ILP32
    ∧ TypeName.Address.underlying.isSigned = false
    ∧ L4_PTR_ARG .ILP32 a = a
    ∧ TypeName.Unsigned8.bits .ILP32 = 8
    ∧ TypeName.Unsigned16.bits .ILP32 = 16
    ∧ TypeName.Unsigned32.bits .ILP32 = 32
    ∧ TypeName.Unsigned64.bits .ILP32 = 64
    ∧ TypeName.Signed8.bits .ILP32 = 8
    ∧ TypeName.Signed16.bits .ILP32 = 16
    ∧ TypeName.Signed32.bits .ILP32 = 32
    ∧ TypeName.Signed64.bits .ILP32 = 64
    ∧ [TypeName.Unsigned8, .Unsigned16, .Unsigned32, .Unsigned64].map
        (fun t => t.underlying.isSigned) = [false, false, false, false]
    ∧ [TypeName.Signed8, .Signed16, .Signed32, .Signed64].map
        (fun t => t.underlying.isSigned) = [true, true, true, true] := by
  have hL : L4_PTR_ARG .ILP32 a = a := by
    unfold L4_PTR_ARG toUnsigned
    exact Nat.mod_eq_of_lt ha
  refine ⟨by decide, by decide, by decide, by decide, by decide, by decide,
    by decide, hL, by decide, by decide, by decide, by decide, by decide,
    by decide, by decide, by decide, by decide, by decide⟩

/-- Witness of C10 at the largest 32-bit address, 2^32 - 1. -/
theorem primitive_type_widths_witness :
    (4294967295 : Nat) < 2 ^ 32 ∧ L4_PTR_ARG .ILP32 4294967295 = 4294967295 :=
  ⟨by decide, (primitive_type_widths 4294967295 (by decide)).2.2.2.2.2.2.2.1⟩

/-! ## Round trip and reserved ranges -/

set_option maxRecDepth 100000 in
theorem namedSlots_pairwise_disjoint (dm : DataModel) :
    (namedSlots dm).Pairwise Slot.disjoint := by
  cases dm <;> decide

theorem namedSlots_in_bounds (dm : DataModel) :
    ∀ s ∈ namedSlots dm, s.offset + s.width ≤ 4096 := by
  cases dm <;> decide

theorem named_disjoint_reserved (dm : DataModel) :
    ∀ r ∈ reservedSlots dm, ∀ s ∈ namedSlots dm, s.disjoint r := by
  cases dm <;> decide

theorem vmcbSlot_of_named (dm : DataModel) :
    ∀ s ∈ namedSlots dm, vmcbSlot dm s.area s.name = some s := by
  cases dm <;> decide

/-- C7: round trip over the raw representation.  For every assignment `val`
of in-range values to the named members of both areas (`val s` below
`2 ^ (8 * width of s)`), storing every named member little-endian at its
packed offset into any 4096-byte image and then loading any named member
from its offset and width gives the value assigned to that member.  The named
slots are the non-reserved members of `control_area` followed by those of
`state_save_area`, the latter shifted by the size of the former. -/
theorem vmcb_roundtrip (dm : DataModel) (val : Slot → Nat) (img : VmcbImage)
    (hval : ∀ s ∈ namedSlots dm, val s < 2 ^ (8 * s.width))
    (s : Slot) (hs : s ∈ namedSlots dm) :
    (storeSlots val img (namedSlots dm)).loadLE s.offset s.width = val s
    ∧ Vmcb.member dm (storeSlots val img (namedSlots dm)) s.area s.name = val s
    ∧ namedSlots dm
        = ((packed dm Vmcb_control_area).filter (fun p => !p.1.reserved)).map
            (fun p => { area := "control_area", name := p.1.name,
                        offset := p.2, width := p.1.sizeof dm,
                        reserved := false })
          ++ ((packed dm Vmcb_state_save_area).filter
                (fun p => !p.1.reserved)).map
            (fun p => { area := "state_save_area", name := p.1.name,
                        offset := packedSize dm Vmcb_control_area + p.2,
                        width := p.1.sizeof dm, reserved := false }) := by
  have hload : (storeSlots val img (namedSlots dm)).loadLE s.offset s.width
      = val s := by
    rw [loadLE_storeSlots_mem val (namedSlots dm) img
      (namedSlots_pairwise_disjoint dm) (namedSlots_in_bounds dm) s hs]
    apply Nat.mod_eq_of_lt
    have h := hval s hs
    rw [pow_mul] at h
    norm_num at h ⊢
    exact h
  refine ⟨hload, ?_, ?_⟩
  · unfold Vmcb.member
    rw [vmcbSlot_of_named dm s hs]
    exact hload
  · cases dm <;> decide

/-- Witness of C7: the sample assignment is in range on every named slot, and
after storing it the member `control_area.np_enable` at 0x90 loads as its
assigned value 0x91. -/
theorem vmcb_roundtrip_witness :
    (∀ s ∈ namedSlots .LP64, sampleValues s < 2 ^ (8 * s.width))
    ∧ (storeSlots sampleValues zeroImage (namedSlots .LP64)).loadLE 0x90 8
        = 0x91 :=
  ⟨by decide,
   (vmcb_roundtrip .LP64 sampleValues zeroImage (by decide)
      { area := "control_area", name := "np_enable", offset := 0x90,
        width := 8, reserved := false } (by decide)).1⟩

/-- C8: reserved-region isolation.  For every `Vmcb` image, every reserved
member `r` (the three of `Vmcb_control_area` and the seven of
`Vmcb_state_save_area`) and every byte sequence of the length of `r`,
overwriting the byte range of `r` with that sequence leaves the value loaded
for every named member of both areas unchanged, and leaves `np_enabled`
unchanged; the byte range of `r` meets the byte range of no named member. -/
theorem reserved_isolation (dm : DataModel) (img : VmcbImage) (r : Slot)
    (hr : r ∈ reservedSlots dm) (bs : List Byte) (hbs : bs.length = r.width) :
    (∀ s ∈ namedSlots dm,
        (img.overwrite r.offset bs).loadLE s.offset s.width
          = img.loadLE s.offset s.width)
    ∧ (∀ s ∈ namedSlots dm,
        Vmcb.member dm (img.overwrite r.offset bs) s.area s.name
          = Vmcb.member dm img s.area s.name)
    ∧ Vmcb.np_enabled dm (img.overwrite r.offset bs) = Vmcb.np_enabled dm img
    ∧ (∀ s ∈ namedSlots dm,
        s.offset + s.width ≤ r.offset ∨ r.offset + r.width ≤ s.offset)
    ∧ (reservedSlots dm).map (fun t => (t.area, t.name, t.offset, t.width))
        = [ ("control_area", "_reserved0", 0x014, 44),
            ("control_area", "_reserved1", 0x098, 16),
            ("control_area", "_reserved2", 0x0C0, 832),
            ("state_save_area", "_reserved0", 0x400 + 0x0A0, 43),
            ("state_save_area", "_reserved1", 0x400 + 0x0CC, 4),
            ("state_save_area", "_reserved2", 0x400 + 0x0D8, 112),
            ("state_save_area", "_reserved3", 0x400 + 0x180, 88),
            ("state_save_area", "_reserved4", 0x400 + 0x1E0, 24),
            ("state_save_area", "_reserved5", 0x400 + 0x248, 32),
            ("state_save_area", "_reserved6", 0x400 + 0x298, 2408) ] := by
  have hload : ∀ s ∈ namedSlots dm,
      (img.overwrite r.offset bs).loadLE s.offset s.width
        = img.loadLE s.offset s.width := by
    intro s hs
    have hd := named_disjoint_reserved dm r hr s hs
    unfold Slot.disjoint at hd
    exact loadLE_overwrite_disjoint img s.offset s.width r.offset bs
      (by rw [hbs]; exact hd)
  have hmem : ∀ s ∈ namedSlots dm,
      Vmcb.member dm (img.overwrite r.offset bs) s.area s.name
        = Vmcb.member dm img s.area s.name := by
    intro s hs
    unfold Vmcb.member
    rw [vmcbSlot_of_named dm s hs]
    exact hload s hs
  have hnp : (Slot.mk "control_area" "np_enable" 0x90 8 false)
      ∈ namedSlots dm := by
    cases dm <;> decide
  refine ⟨hload, hmem, ?_, ?_, ?_⟩
  · rw [np_enabled_eq_mod, np_enabled_eq_mod]
    exact congrArg (fun x => x % 2) (hmem _ hnp)
  · intro s hs
    exact named_disjoint_reserved dm r hr s hs
  · cases dm <;> decide

/-- Witness of C8: overwriting `state_save_area._reserved1` (4 bytes at
0x4CC) with the bytes 255, 254, 253, 252 in the image that holds 1 in every
byte leaves `np_enabled` at 1. -/
theorem reserved_isolation_witness :
    ({ area := "state_save_area", name := "_reserved1", offset := 0x4CC,
       width := 4, reserved := true } : Slot) ∈ reservedSlots .ILP32
    ∧ ([255, 254, 253, 252] : List Byte).length = 4
    ∧ Vmcb.np_enabled .ILP32
        (Image.overwrite onesImage 0x4CC [255, 254, 253, 252]) = 1 :=
  ⟨by decide, by decide,
   ((reserved_isolation .ILP32 onesImage
      { area := "state_save_area", name := "_reserved1", offset := 0x4CC,
        width := 4, reserved := true } (by decide)
      [255, 254, 253, 252] (by decide)).2.2.1).trans (by decide)⟩

end Fiasco

namespace Fiasco

/-! ## Natural alignment and tiling -/

theorem natural_pads_sample (dm : DataModel) :
    packed dm paddedSample
      = [(fld .Unsigned8 "a", 0), (fld .Unsigned64 "b", 1)]
    ∧ natural dm paddedSample
      = [(fld .Unsigned8 "a", 0), (fld .Unsigned64 "b", 8)]
    ∧ packedSize dm paddedSample = 9
    ∧ naturalSize dm paddedSample = 16 := by
  cases dm <;> decide

set_option maxRecDepth 100000 in
/-- C11: in `Vmcb_control_area`, `Vmcb_state_save_area` and `Vmcb` every
member, named or reserved, has a packed offset that is a multiple of its
natural alignment (1, 2, 4, 8 for `Unsigned8/16/32/64`, the element's for an
array, the largest member's for a structure), and each size is a multiple of
8; the layout with natural alignment has the same offset for every member and
the same size as the packed layout; each size is the sum of the widths of the
declared members. -/
theorem no_implicit_padding (dm : DataModel) :
    [TypeName.Unsigned8, .Unsigned16, .Unsigned32, .Unsigned64].map
        (fun t => t.alignof dm) = [1, 2, 4, 8]
    ∧ (arr .Unsigned8 "_reserved0" 44).alignof dm = 1
    ∧ (∀ p ∈ packed dm Vmcb_control_area, p.2 % p.1.alignof dm = 0)
    ∧ (∀ p ∈ packed dm Vmcb_state_save_area, p.2 % p.1.alignof dm = 0)
    ∧ (∀ p ∈ packedStructsFrom dm 0 Vmcb,
        structAlignof dm p.1.members = 8 ∧ p.2 % 8 = 0)
    ∧ packedSize dm Vmcb_control_area % 8 = 0
    ∧ packedSize dm Vmcb_state_save_area % 8 = 0
    ∧ packedStructsSize dm Vmcb % 8 = 0
    ∧ natural dm Vmcb_control_area = packed dm Vmcb_control_area
    ∧ naturalSize dm Vmcb_control_area = packedSize dm Vmcb_control_area
    ∧ natural dm Vmcb_state_save_area = packed dm Vmcb_state_save_area
    ∧ naturalSize dm Vmcb_state_save_area = packedSize dm Vmcb_state_save_area
    ∧ naturalStructsFrom dm 0 Vmcb = packedStructsFrom dm 0 Vmcb
    ∧ naturalStructsSize dm Vmcb = packedStructsSize dm Vmcb
    ∧ packedSize dm Vmcb_control_area
        = (Vmcb_control_area.map (fun m => m.sizeof dm)).sum
    ∧ packedSize dm Vmcb_state_save_area
        = (Vmcb_state_save_area.map (fun m => m.sizeof dm)).sum
    ∧ packedStructsSize dm Vmcb
        = ((vmcbSlots dm).map (fun s => s.width)).sum := by
  cases dm <;> decide

theorem packedFrom_bounds (dm : DataModel) :
    ∀ (ms : List Member) (start : Nat) (p : Member × Nat),
      p ∈ packedFrom dm start ms →
      start ≤ p.2 ∧ p.2 + p.1.sizeof dm ≤ start + packedSize dm ms := by
  intro ms
  induction ms with
  | nil => intro start p hp; cases hp
  | cons m ms ih =>
    intro start p hp
    simp only [packedFrom, List.mem_cons] at hp
    rcases hp with rfl | hp
    · simp only [packedSize]
      omega
    · have h := ih _ p hp
      simp only [packedSize]
      omega

theorem packedFrom_pairwise (dm : DataModel) :
    ∀ (ms : List Member) (start : Nat),
      (packedFrom dm start ms).Pairwise (rangesDisjoint dm) := by
  intro ms
  induction ms with
  | nil => intro start; exact List.Pairwise.nil
  | cons m ms ih =>
    intro start
    simp only [packedFrom]
    refine List.pairwise_cons.mpr ⟨?_, ih _⟩
    intro q hq
    exact Or.inl (packedFrom_bounds dm ms _ q hq).1

theorem packedFrom_cover (dm : DataModel) :
    ∀ (ms : List Member) (start b : Nat), start ≤ b →
      b < start + packedSize dm ms →
      ∃ p ∈ packedFrom dm start ms, covers dm p b := by
  intro ms
  induction ms with
  | nil =>
    intro start b h1 h2
    simp only [packedSize] at h2
    omega
  | cons m ms ih =>
    intro start b h1 h2
    simp only [packedSize] at h2
    by_cases hb : b < start + m.sizeof dm
    · exact ⟨(m, start), List.mem_cons_self _ _, h1, hb⟩
    · obtain ⟨p, hp, hc⟩ := ih (start + m.sizeof dm) b (by omega) (by omega)
      exact ⟨p, List.mem_cons_of_mem _ hp, hc⟩

theorem covered_unique {α : Type} (lo hi : α → Nat) (l : List α)
    (hp : l.Pairwise (fun x y => hi x ≤ lo y ∨ hi y ≤ lo x)) (b : Nat)
    (x y : α) (hx : x ∈ l) (hy : y ∈ l) (hbx : lo x ≤ b ∧ b < hi x)
    (hby : lo y ≤ b ∧ b < hi y) : x = y := by
  have hp2 : l.Pairwise (fun x y => x = y ∨ (hi x ≤ lo y ∨ hi y ≤ lo x)) :=
    hp.imp (fun h => Or.inr h)
  have hsym : Symmetric (fun x y : α => x = y ∨ (hi x ≤ lo y ∨ hi y ≤ lo x)) := by
    intro u v h
    rcases h with h | h | h
    · exact Or.inl h.symm
    · exact Or.inr (Or.inr h)
    · exact Or.inr (Or.inl h)
  have hall := List.Pairwise.forall_of_forall hsym (fun u _ => Or.inl rfl) hp2
  rcases hall hx hy with h | h | h
  · exact h
  · omega
  · omega

theorem packed_exactly_one (dm : DataModel) (ms : List Member) (b : Nat)
    (hb : b < packedSize dm ms) :
    ∃! p, p ∈ packed dm ms ∧ covers dm p b := by
  obtain ⟨p, hp, hc⟩ := packedFrom_cover dm ms 0 b (Nat.zero_le b) (by omega)
  refine ⟨p, ⟨hp, hc⟩, ?_⟩
  intro q hq
  exact covered_unique (fun p : Member × Nat => p.2)
    (fun p : Member × Nat => p.2 + p.1.sizeof dm)
    (packed dm ms) (packedFrom_pairwise dm ms 0) b q p hq.1 hp hq.2 hc

theorem packed_cover_iff (dm : DataModel) (ms : List Member) (b : Nat) :
    b < packedSize dm ms ↔ ∃ p ∈ packed dm ms, covers dm p b := by
  constructor
  · intro hb
    exact packedFrom_cover dm ms 0 b (Nat.zero_le b) (by omega)
  · rintro ⟨p, hp, hc⟩
    have h := packedFrom_bounds dm ms 0 p hp
    unfold covers at hc
    omega

set_option maxRecDepth 100000 in
theorem vmcbSlots_pairwise_disjoint (dm : DataModel) :
    (vmcbSlots dm).Pairwise Slot.disjoint := by
  cases dm <;> decide

theorem vmcbSlots_split (dm : DataModel) :
    vmcbSlots dm
      = (packedFrom dm 0 Vmcb_control_area).map (fun p =>
          { area := "control_area", name := p.1.name, offset := p.2,
            width := p.1.sizeof dm, reserved := p.1.reserved })
        ++ (packedFrom dm 1024 Vmcb_state_save_area).map (fun p =>
          { area := "state_save_area", name := p.1.name, offset := p.2,
            width := p.1.sizeof dm, reserved := p.1.reserved }) := by
  cases dm <;> decide

theorem vmcbSlots_in_bounds (dm : DataModel) :
    ∀ s ∈ vmcbSlots dm, 0 < s.width ∧ s.offset + s.width ≤ 4096 := by
  cases dm <;> decide

theorem vmcbSlots_cover (dm : DataModel) (b : Nat) (hb : b < 4096) :
    ∃ s ∈ vmcbSlots dm, s.covers b := by
  have h1 : packedSize dm Vmcb_control_area = 1024 := by cases dm <;> decide
  have h2 : packedSize dm Vmcb_state_save_area = 3072 := by cases dm <;> decide
  rw [vmcbSlots_split]
  by_cases hlt : b < 1024
  · obtain ⟨p, hp, hc⟩ := packedFrom_cover dm Vmcb_control_area 0 b
      (Nat.zero_le b) (by omega)
    exact ⟨_, List.mem_append_left _ (List.mem_map_of_mem _ hp), hc⟩
  · obtain ⟨p, hp, hc⟩ := packedFrom_cover dm Vmcb_state_save_area 1024 b
      (by omega) (by omega)
    exact ⟨_, List.mem_append_right _ (List.mem_map_of_mem _ hp), hc⟩

/-- C12: tiling.  In `Vmcb_control_area` (1024 bytes) and in
`Vmcb_state_save_area` (3072 bytes) the byte ranges of all declared members,
named and reserved, are pairwise disjoint, and a byte `b` lies in the range
of some member exactly when it is below the size; so does the flattened
`Vmcb` with 4096 bytes, where every byte below 4096 lies in the range of
exactly one declared member. -/
theorem member_ranges_tile (dm : DataModel) (b : Nat) :
    (packed dm Vmcb_control_area).Pairwise (rangesDisjoint dm)
    ∧ packedSize dm Vmcb_control_area = 1024
    ∧ (b < 1024 ↔ ∃ p ∈ packed dm Vmcb_control_area, covers dm p b)
    ∧ (b < 1024 → ∃! p, p ∈ packed dm Vmcb_control_area ∧ covers dm p b)
    ∧ (packed dm Vmcb_state_save_area).Pairwise (rangesDisjoint dm)
    ∧ packedSize dm Vmcb_state_save_area = 3072
    ∧ (b < 3072 ↔ ∃ p ∈ packed dm Vmcb_state_save_area, covers dm p b)
    ∧ (b < 3072 → ∃! p, p ∈ packed dm Vmcb_state_save_area ∧ covers dm p b)
    ∧ (vmcbSlots dm).Pairwise Slot.disjoint
    ∧ (∀ s ∈ vmcbSlots dm, 0 < s.width)
    ∧ (b < 4096 ↔ ∃ s ∈ vmcbSlots dm, s.covers b)
    ∧ (b < 4096 → ∃! s, s ∈ vmcbSlots dm ∧ s.covers b) := by
  have h1 : packedSize dm Vmcb_control_area = 1024 := by cases dm <;> decide
  have h2 : packedSize dm Vmcb_state_save_area = 3072 := by cases dm <;> decide
  have hc1 := packed_cover_iff dm Vmcb_control_area b
  have hc2 := packed_cover_iff dm Vmcb_state_save_area b
  rw [h1] at hc1
  rw [h2] at hc2
  refine ⟨packedFrom_pairwise dm _ 0, h1, hc1, ?_, packedFrom_pairwise dm _ 0,
    h2, hc2, ?_, vmcbSlots_pairwise_disjoint dm,
    fun s hs => (vmcbSlots_in_bounds dm s hs).1, ?_, ?_⟩
  · intro hb
    exact packed_exactly_one dm Vmcb_control_area b (by omega)
  · intro hb
    exact packed_exactly_one dm Vmcb_state_save_area b (by omega)
  · constructor
    · exact vmcbSlots_cover dm b
    · rintro ⟨s, hs, hc⟩
      have h := (vmcbSlots_in_bounds dm s hs).2
      unfold Slot.covers at hc
      omega
  · intro hb
    obtain ⟨s, hs, hc⟩ := vmcbSlots_cover dm b hb
    refine ⟨s, ⟨hs, hc⟩, ?_⟩
    intro t ht
    exact covered_unique (fun s : Slot => s.offset)
      (fun s : Slot => s.offset + s.width)
      (vmcbSlots dm) (vmcbSlots_pairwise_disjoint dm) b t s ht.1 hs ht.2 hc

/-- Witness of C12 at byte 0x4CB of the `Vmcb`: it is below 4096 and lies in
the range of exactly one declared member (`state_save_area.cpl`). -/
theorem member_ranges_tile_witness :
    (0x4CB : Nat) < 4096
    ∧ (Slot.mk "state_save_area" "cpl" 0x4CB 1 false) ∈ vmcbSlots .ILP32
    ∧ ∃! s, s ∈ vmcbSlots .ILP32 ∧ s.covers 0x4CB :=
  ⟨by decide, by decide,
   (member_ranges_tile .ILP32 0x4CB).2.2.2.2.2.2.2.2.2.2.2 (by decide)⟩

end Fiasco
